import Mathlib

/-
  Verification of the training harness in `network/base_model.py` of the
  mrs repository (class `Base`: `inference`, `step`, `step_aux`,
  `step_mixed_batch`).

  Shallow embedding conventions:
  - tensors are lists: an image batch is a `List ImgS` of abstract samples,
    a label batch is a `List (List (List Int))` (batch, height, width);
  - losses are rationals; model parameters, predictions and auxiliary class
    outputs are abstract type parameters;
  - in-place mutation (optimizer step on the parameters, criterion running
    state, the `data_loader_others` list of `step_mixed_batch`) is threaded
    through an explicit state record that each step function returns;
  - the Python assertion on `loss_weights` is an `Except.error`;
  - device movement, tqdm progress display and the external visualization
    collaborator (`vis_utils.make_tb_image`) carry no semantic content in
    the claims and are modelled as no-ops (the report slot for the banner
    is the opaque `ReportVal.image`); `mean` and `std` only feed the banner
    and are dropped.
-/

namespace MRS

/-- Python dict lookup on an association list: first matching key. -/
def pyGet {K V : Type} [DecidableEq K] : List (K × V) → K → Option V
  | [], _ => none
  | p :: ps, k => if p.1 = k then some p.2 else pyGet ps k

/-- Python dict assignment `d[k] = v`: overwrite in place when the key is
present, append otherwise (insertion order preserved). -/
def pyInsert {K V : Type} [DecidableEq K] (d : List (K × V)) (k : K) (v : V) :
    List (K × V) :=
  if d.any (fun p => p.1 = k) then
    d.map (fun p => if p.1 = k then (k, v) else p)
  else d ++ [(k, v)]

/-- Python dict built from a list of key-value pairs (later pairs win). -/
def pyDict {K V : Type} [DecidableEq K] (l : List (K × V)) : List (K × V) :=
  List.foldl (fun d p => pyInsert d p.1 p.2) [] l

/-- Python slice `l[m:-m]` as used for label-margin cropping (only reached
under the guard `lbl_margin > 0` in the source). -/
def pySlice {α : Type} (m : ℕ) (l : List α) : List α :=
  (l.drop m).take (l.length - 2 * m)

/-- One label sample: a height-by-width map of integer class ids. -/
abbrev LabelSample := List (List Int)

/-- A label batch, produced by `Variable(label).long()`. -/
abbrev LabelT := List LabelSample

/-- Margin handling from the step loop:
`if self.lbl_margin > 0: label = label[:, m:-m, m:-m]`. -/
def cropIfMargin (m : ℕ) (label : LabelT) : LabelT :=
  if 0 < m then label.map (fun s => (pySlice m s).map (pySlice m)) else label

/-- A criterion: a named loss function together with its running tracker.
The loss function itself lives in `base_model.py` call sites; the tracker
fields and the three methods below are
Modelled from the spec: the criterion tracker class (in `mrs_utils`, not
part of the provided sources) keeps a running weighted average, where
`update(loss, batch_size)` folds in one observation, `get_loss()` returns
the running mean and `reset()` clears the state. -/
structure Criterion (A B : Type) where
  name : String
  f : A → B → ℚ
  sumLoss : ℚ
  count : ℕ

/-- Modelled from the spec: `update(loss, batch_size)` folds in one
observation weighted by the batch size. -/
def Criterion.update {A B : Type} (c : Criterion A B) (loss : ℚ) (bs : ℕ) :
    Criterion A B :=
  { c with sumLoss := c.sumLoss + loss * (bs : ℚ), count := c.count + bs }

/-- Modelled from the spec: `get_loss()` returns the running mean. -/
def Criterion.getLoss {A B : Type} (c : Criterion A B) : ℚ :=
  c.sumLoss / (c.count : ℚ)

/-- Modelled from the spec: `reset()` clears the accumulated state. -/
def Criterion.reset {A B : Type} (c : Criterion A B) : Criterion A B :=
  { c with sumLoss := 0, count := 0 }

/-- A value stored in the returned `loss_dict`: either a reported running
loss or the diagnostic banner built by the external visualization
collaborator (opaque here, out of the core per the spec). -/
inductive ReportVal where
  | loss (v : ℚ)
  | image
deriving DecidableEq, Repr

/-- The `loss_dict` report returned by the step functions. -/
abbrev Report := List (String × ReportVal)

/-- Failure of one call to a step function: the Python `assert` on
`loss_weights`, or the infinite hang of `infi_loop` over an empty
secondary source (modelled as an error). -/
inductive StepErr where
  | assertionError
  | stuck
deriving DecidableEq, Repr

/-- The `bp_loss_idx` argument: a single int or a tuple of ints. -/
inductive BpIdx where
  | single (i : ℕ)
  | tuple (l : List ℕ)

/-- Normalization `if isinstance(bp_loss_idx, int): bp_loss_idx = (bp_loss_idx,)`. -/
def normBp : BpIdx → List ℕ
  | .single i => [i]
  | .tuple l => l

/-- Normalization of `loss_weights` at the top of every step variant:
`None` gives weight 1.0 for every selected index; otherwise the length must
match `bp_loss_idx` (assertion), each weight is divided by the sum and the
results are zipped positionally with the selected indices into a dict. -/
def normLossWeights (bp : List ℕ) : Option (List ℚ) → Except StepErr (List (ℕ × ℚ))
  | none => .ok (pyDict (bp.map (fun a => (a, (1 : ℚ)))))
  | some ws =>
      if ws.length = bp.length then
        .ok (pyDict (bp.zip (ws.map (fun a => a / ws.sum))))
      else
        .error .assertionError

/-- Lookup `loss_weights[c_cnt]` (the source only reaches it for keys that
are present; the default 0 is never used there). -/
def lwGet (lw : List (ℕ × ℚ)) (k : ℕ) : ℚ :=
  (pyGet lw k).getD 0

/-- Result of `forward`: either a single prediction or a tuple whose first
component is the prediction (auxiliary outputs behind it). -/
inductive ForwardOut (Pred Cls : Type) where
  | single (t : Pred)
  | tup (fst : Pred) (snd : Cls)

/-- The method `Base.inference`: run forward, and when the result is a
tuple keep only its first element. -/
def Base.inference {In Pred Cls : Type} (forward : In → ForwardOut Pred Cls)
    (x : In) : Pred :=
  match forward x with
  | .tup a _ => a
  | .single t => t

/- ### Association list lemmas -/

theorem pyGet_eq_none_of_not_any {K V : Type} [DecidableEq K]
    (d : List (K × V)) (k : K) (h : d.any (fun p => p.1 = k) = false) :
    pyGet d k = none := by
  induction d with
  | nil => rfl
  | cons p ps ih =>
      simp only [List.any_cons, Bool.or_eq_false_iff, decide_eq_false_iff_not] at h
      simp [pyGet, h.1, ih h.2]

theorem pyGet_append_of_none {K V : Type} [DecidableEq K]
    {d : List (K × V)} {k : K} (e : List (K × V)) (h : pyGet d k = none) :
    pyGet (d ++ e) k = pyGet e k := by
  induction d with
  | nil => rfl
  | cons p ps ih =>
      by_cases hp : p.1 = k
      · simp [pyGet, hp] at h
      · simp only [pyGet, hp, if_false] at h
        simpa [pyGet, hp] using ih h

theorem pyGet_map_replace {K V : Type} [DecidableEq K]
    (d : List (K × V)) (k : K) (v : V) (k' : K) (h : k' ≠ k) :
    pyGet (d.map (fun p => if p.1 = k then (k, v) else p)) k' = pyGet d k' := by
  induction d with
  | nil => rfl
  | cons p ps ih =>
      by_cases hp : p.1 = k
      · have hk : ¬ (k = k') := fun hh => h hh.symm
        simp [pyGet, hp, hk, ih]
      · simp only [List.map_cons, if_neg hp]
        by_cases hp' : p.1 = k'
        · simp [pyGet, hp']
        · simp [pyGet, hp', ih]

theorem pyGet_append_of_some {K V : Type} [DecidableEq K]
    {d : List (K × V)} {k : K} {v : V}
    (e : List (K × V)) (h : pyGet d k = some v) : pyGet (d ++ e) k = some v := by
  induction d with
  | nil => simp [pyGet] at h
  | cons p ps ih =>
      by_cases hp : p.1 = k
      · simpa [pyGet, hp] using h
      · simp only [pyGet, if_neg hp] at h
        simpa [pyGet, hp] using ih h

theorem pyGet_map_replace_self {K V : Type} [DecidableEq K] (k : K) (v : V) :
    ∀ d : List (K × V), (d.any fun p => p.1 = k) = true →
      pyGet (d.map (fun p => if p.1 = k then (k, v) else p)) k = some v := by
  intro d
  induction d with
  | nil => intro h; simp at h
  | cons p ps ih =>
      intro h
      by_cases hp : p.1 = k
      · simp [pyGet, hp]
      · have hps : (ps.any fun p => p.1 = k) = true := by
          simpa [List.any_cons, hp] using h
        simp [pyGet, hp, ih hps]

theorem pyGet_pyInsert_self {K V : Type} [DecidableEq K]
    (d : List (K × V)) (k : K) (v : V) :
    pyGet (pyInsert d k v) k = some v := by
  unfold pyInsert
  by_cases h : (d.any fun p => p.1 = k) = true
  · rw [if_pos h]
    exact pyGet_map_replace_self k v d h
  · rw [if_neg h]
    rw [pyGet_append_of_none _
      (pyGet_eq_none_of_not_any d k (Bool.not_eq_true _ ▸ h))]
    simp [pyGet]

theorem pyGet_pyInsert_ne {K V : Type} [DecidableEq K]
    (d : List (K × V)) (k k' : K) (v : V) (h : k' ≠ k) :
    pyGet (pyInsert d k v) k' = pyGet d k' := by
  unfold pyInsert
  by_cases ha : (d.any fun p => p.1 = k) = true
  · rw [if_pos ha]
    exact pyGet_map_replace d k v k' h
  · rw [if_neg ha]
    cases hd : pyGet d k' with
    | none =>
        rw [pyGet_append_of_none _ hd]
        have hk : ¬ (k = k') := fun hh => h hh.symm
        simp [pyGet, hd, hk]
    | some v' => rw [pyGet_append_of_some _ hd]

theorem pyInsert_of_not_mem_keys {K V : Type} [DecidableEq K]
    (d : List (K × V)) (k : K) (v : V) (h : k ∉ d.map Prod.fst) :
    pyInsert d k v = d ++ [(k, v)] := by
  have hc : ¬ ((d.any fun p => p.1 = k) = true) := by
    simp only [List.any_eq_true, decide_eq_true_eq, not_exists, not_and]
    intro p hp hk
    exact h (hk ▸ List.mem_map_of_mem Prod.fst hp)
  unfold pyInsert
  rw [if_neg hc]

theorem pyDict_eq_self_of_nodup {K V : Type} [DecidableEq K]
    (l : List (K × V)) (h : (l.map Prod.fst).Nodup) : pyDict l = l := by
  suffices H : ∀ (d : List (K × V)), ((d ++ l).map Prod.fst).Nodup →
      List.foldl (fun d p => pyInsert d p.1 p.2) d l = d ++ l by
    simpa using H [] (by simpa using h)
  clear h
  induction l with
  | nil => intro d _; simp
  | cons p ps ih =>
      intro d hd
      have hk : p.1 ∉ d.map Prod.fst := by
        rw [List.map_append, List.nodup_append] at hd
        intro hmem
        exact hd.2.2 hmem (by simp)
      simp only [List.foldl_cons, pyInsert_of_not_mem_keys d p.1 p.2 hk]
      have hrec := ih (d ++ [(p.1, p.2)]) (by simpa using hd)
      rw [hrec]
      simp

theorem map_fst_pairs {α β : Type} (l : List α) (v : β) :
    (l.map (fun a => (a, v))).map Prod.fst = l := by
  induction l with
  | nil => rfl
  | cons a as ih => simp [ih]

theorem pyGet_map_const {K V : Type} [DecidableEq K]
    (l : List K) (v : V) (k : K) (h : k ∈ l) :
    pyGet (l.map (fun a => (a, v))) k = some v := by
  induction l with
  | nil => cases h
  | cons a as ih =>
      by_cases ha : a = k
      · simp [pyGet, ha]
      · rcases List.mem_cons.mp h with h1 | h1
        · exact absurd h1.symm ha
        · simp [pyGet, ha, ih h1]

/- ### Claim C3: loss weight normalization -/

theorem sum_map_div (ws : List ℚ) (s : ℚ) :
    (ws.map (fun a => a / s)).sum = ws.sum / s := by
  induction ws with
  | nil => simp
  | cons a as ih => simp [ih, add_div]

/-- Claim C3: with `loss_weights = None` every index in `bp_loss_idx` gets
weight 1.0; with `loss_weights` of matching length each weight is divided
by the sum, the results sum to 1.0 and are assigned positionally; in
particular `bp_loss_idx = (0, 1)` with `loss_weights = (3, 1)` gives the
mapping from 0 to 0.75 and from 1 to 0.25. -/
theorem loss_weight_normalization (bp : List ℕ) (ws : List ℚ)
    (hnd : bp.Nodup) (hlen : ws.length = bp.length) (hsum : ws.sum ≠ 0) :
    (normLossWeights bp none = .ok (bp.map (fun a => (a, (1 : ℚ)))) ∧
      ∀ a ∈ bp, pyGet (bp.map (fun a => (a, (1 : ℚ)))) a = some 1) ∧
    (normLossWeights bp (some ws) =
        .ok (bp.zip (ws.map (fun a => a / ws.sum))) ∧
      ((bp.zip (ws.map (fun a => a / ws.sum))).map Prod.snd).sum = 1) ∧
    normLossWeights (normBp (.tuple [0, 1])) (some [3, 1]) =
      .ok [(0, 3 / 4), (1, 1 / 4)] := by
  refine ⟨⟨?_, ?_⟩, ⟨?_, ?_⟩, ?_⟩
  · simp only [normLossWeights]
    rw [pyDict_eq_self_of_nodup]
    rw [map_fst_pairs]
    exact hnd
  · intro a ha
    exact pyGet_map_const bp 1 a ha
  · simp only [normLossWeights]
    rw [if_pos hlen, pyDict_eq_self_of_nodup]
    rw [List.map_fst_zip bp (ws.map (fun a => a / ws.sum)) (by simp [hlen])]
    exact hnd
  · rw [List.map_snd_zip bp (ws.map (fun a => a / ws.sum)) (by simp [hlen]),
      sum_map_div, div_self hsum]
  · simp only [normLossWeights, normBp]
    norm_num [pyDict, pyInsert, List.zip, List.zipWith]

/-- Witness for C3 at `bp_loss_idx = (0, 1)`, `loss_weights = (3, 1)`. -/
theorem loss_weight_normalization_witness :
    (([0, 1] : List ℕ).Nodup ∧ ([3, 1] : List ℚ).length = ([0, 1] : List ℕ).length ∧
      ([3, 1] : List ℚ).sum ≠ 0) ∧
    normLossWeights [0, 1] (some [3, 1]) = .ok [(0, 3 / 4), (1, 1 / 4)] := by
  have h := loss_weight_normalization [0, 1] [3, 1] (by decide) (by decide) (by norm_num)
  refine ⟨⟨by decide, by decide, by norm_num⟩, ?_⟩
  rw [h.2.1.1]
  norm_num [List.zip, List.zipWith]

/- ### Claim C5: label margin cropping -/

theorem pySlice_length {α : Type} (m : ℕ) (l : List α) :
    (pySlice m l).length = l.length - 2 * m := by
  simp only [pySlice, List.length_take, List.length_drop]
  omega

/-- Claim C5: with `label_margin = m > 0` and labels of spatial size
(H, W) with 2m at most H and W, the cropped labels have spatial size
(H - 2m, W - 2m); with `m = 0` the labels are unchanged. -/
theorem label_margin_crop (m H W : ℕ) (lbl : LabelT)
    (hm : 0 < m) (hH : 2 * m ≤ H) (hW : 2 * m ≤ W)
    (hs : ∀ s ∈ lbl, s.length = H ∧ ∀ r ∈ s, r.length = W) :
    (∀ s ∈ cropIfMargin m lbl,
        s.length = H - 2 * m ∧ ∀ r ∈ s, r.length = W - 2 * m) ∧
    cropIfMargin 0 lbl = lbl := by
  constructor
  · intro s hsmem
    simp only [cropIfMargin, if_pos hm, List.mem_map] at hsmem
    obtain ⟨s₀, hs₀, rfl⟩ := hsmem
    obtain ⟨hlen, hrow⟩ := hs s₀ hs₀
    constructor
    · rw [List.length_map, pySlice_length, hlen]
    · intro r hr
      simp only [List.mem_map] at hr
      obtain ⟨r₀, hr₀, rfl⟩ := hr
      have hr₀mem : r₀ ∈ s₀ := by
        have : r₀ ∈ s₀.drop m := List.take_subset _ _ hr₀
        exact List.drop_subset _ _ this
      rw [pySlice_length, hrow r₀ hr₀mem]
  · simp [cropIfMargin]

/-- Witness for C5: a 3x3 label batch with margin 1 crops to 1x1, and
margin 0 leaves it unchanged. -/
theorem label_margin_crop_witness :
    ((0 : ℕ) < 1 ∧ 2 * 1 ≤ 3 ∧
      ∀ s ∈ ([[[0, 1, 2], [3, 4, 5], [6, 7, 8]]] : LabelT),
        s.length = 3 ∧ ∀ r ∈ s, r.length = 3) ∧
    (∀ s ∈ cropIfMargin 1 ([[[0, 1, 2], [3, 4, 5], [6, 7, 8]]] : LabelT),
        s.length = 3 - 2 * 1 ∧ ∀ r ∈ s, r.length = 3 - 2 * 1) ∧
    cropIfMargin 0 ([[[0, 1, 2], [3, 4, 5], [6, 7, 8]]] : LabelT) =
      [[[0, 1, 2], [3, 4, 5], [6, 7, 8]]] := by
  have h := label_margin_crop 1 3 3 [[[0, 1, 2], [3, 4, 5], [6, 7, 8]]]
    (by decide) (by decide) (by decide) (by decide)
  exact ⟨⟨by decide, by decide, by decide⟩, h.1, h.2⟩

/- ### Claim C7: inference unwraps tuples -/

/-- Claim C7: `inference` returns exactly the first element of a tuple
result of `forward`, and returns a non-tuple result unchanged. -/
theorem inference_unwraps {In Pred Cls : Type}
    (forward : In → ForwardOut Pred Cls) (x : In) :
    (∀ a b, forward x = .tup a b → Base.inference forward x = a) ∧
    (∀ t, forward x = .single t → Base.inference forward x = t) := by
  constructor
  · intro a b h
    unfold Base.inference
    rw [h]
  · intro t h
    unfold Base.inference
    rw [h]

/-- Witness for C7 on a tuple-returning forward and on a single-output
forward. -/
theorem inference_unwraps_witness :
    ((fun _ : ℕ => ForwardOut.tup (1 : ℕ) (2 : ℕ)) 0 = .tup 1 2 ∧
      Base.inference (fun _ : ℕ => ForwardOut.tup (1 : ℕ) (2 : ℕ)) 0 = 1) ∧
    ((fun _ : ℕ => (ForwardOut.single 5 : ForwardOut ℕ ℕ)) 0 = .single 5 ∧
      Base.inference (fun _ : ℕ => (ForwardOut.single 5 : ForwardOut ℕ ℕ)) 0 = 5) := by
  refine ⟨⟨rfl, ?_⟩, ⟨rfl, ?_⟩⟩
  · exact (inference_unwraps (fun _ : ℕ => ForwardOut.tup (1 : ℕ) (2 : ℕ)) 0).1 1 2 rfl
  · exact (inference_unwraps (fun _ : ℕ => (ForwardOut.single 5 : ForwardOut ℕ ℕ)) 0).2 5 rfl

/- ### The per-epoch step loop of `Base.step` -/

/-- Facts recorded about one batch iteration: the image tensor handed to
forward (after any mixed-batch concatenation), whether the image tensor
had gradient tracking enabled (`Variable(image, requires_grad=True)`),
whether forward ran with gradients enabled (outside `no_grad`), and the
total `loss_all` that the train phase would backpropagate. -/
structure BatchTrace (ImgS : Type) where
  imageData : List ImgS
  imgReqGrad : Bool
  gradScope : Bool
  lossAll : ℚ

/-- Mutable state threaded through one call to `Base.step`: the model
parameters (mutated by `optm.step()`), the criterion trackers, the
`loss_dict` under construction, counters of `backward` and `optm.step()`
calls, and the per-batch trace. -/
structure StepState (P Pred ImgS : Type) where
  params : P
  crits : List (Criterion Pred LabelT)
  lossDict : Report
  nBackward : ℕ
  nOptStep : ℕ
  trace : List (BatchTrace ImgS)

/-- The criterion loop
`for c_cnt, c in enumerate(criterions): loss = c(pred, label); ...`:
accumulates `loss_weights[c_cnt] * loss` into `loss_all` only in train
phase and only for selected indices, and updates every tracker with the
batch size. Returns the final `loss_all` and the updated criteria. -/
def critLoop {Pred : Type} (phase : String) (bp : List ℕ) (lw : List (ℕ × ℚ))
    (pred : Pred) (label : LabelT) (bs : ℕ) :
    ℕ → ℚ → List (Criterion Pred LabelT) → ℚ × List (Criterion Pred LabelT)
  | _, lossAll, [] => (lossAll, [])
  | cnt, lossAll, c :: cs =>
      let loss := c.f pred label
      let lossAll1 :=
        if phase = "train" ∧ cnt ∈ bp then lossAll + lwGet lw cnt * loss
        else lossAll
      let rest := critLoop phase bp lw pred label bs (cnt + 1) lossAll1 cs
      (rest.1, c.update loss bs :: rest.2)

/-- One iteration of the batch loop of `Base.step`. Mirrors the source
order: build the image variable with `requires_grad=True`, zero the
gradients, run forward (inside `no_grad` outside train), crop the label
margin, run the criterion loop, backpropagate and step the optimizer in
train phase, and store the visualization banner on the first batch. -/
def stepBody {P Pred ImgS : Type} (fwd : P → List ImgS → Pred)
    (optmStep : P → P) (phase : String) (lblMargin : ℕ) (bp : List ℕ)
    (lw : List (ℕ × ℚ)) (saveImage : Bool) (imgCnt : ℕ)
    (st : StepState P Pred ImgS) (batch : List ImgS × LabelT) :
    StepState P Pred ImgS :=
  let image := batch.1
  let imgReqGrad := true
  let gradScope := decide (phase = "train")
  let pred := fwd st.params image
  let label := cropIfMargin lblMargin batch.2
  let res := critLoop phase bp lw pred label image.length 0 0 st.crits
  let st1 :=
    if phase = "train" then
      { st with params := optmStep st.params, crits := res.2,
                nBackward := st.nBackward + 1, nOptStep := st.nOptStep + 1 }
    else { st with crits := res.2 }
  let st2 :=
    if saveImage ∧ imgCnt = 0 then
      { st1 with lossDict := pyInsert st1.lossDict ("image") ReportVal.image }
    else st1
  { st2 with trace := st2.trace ++ [⟨image, imgReqGrad, gradScope, res.1⟩] }

/-- The batch loop `for img_cnt, (image, label) in enumerate(data_loader)`. -/
def runStep {P Pred ImgS : Type} (fwd : P → List ImgS → Pred)
    (optmStep : P → P) (phase : String) (lblMargin : ℕ) (bp : List ℕ)
    (lw : List (ℕ × ℚ)) (saveImage : Bool) :
    ℕ → StepState P Pred ImgS → List (List ImgS × LabelT) →
    StepState P Pred ImgS
  | _, st, [] => st
  | imgCnt, st, b :: bs =>
      runStep fwd optmStep phase lblMargin bp lw saveImage (imgCnt + 1)
        (stepBody fwd optmStep phase lblMargin bp lw saveImage imgCnt st b) bs

/-- The closing loop
`for c in criterions: loss_dict[c.name] = c.get_loss(); c.reset()`. -/
def finalize {A B : Type} :
    List (Criterion A B) → Report → Report × List (Criterion A B)
  | [], d => (d, [])
  | c :: cs, d =>
      let d1 := pyInsert d c.name (ReportVal.loss c.getLoss)
      let rest := finalize cs d1
      (rest.1, c.reset :: rest.2)

/-- The method `Base.step`: one epoch over `data_loader`. Arguments
`device`, `mean` and `std` of the source carry no semantic content here
(device moves are no-ops and mean/std only feed the external banner).
Returns the `loss_dict` report together with the final mutated state. -/
def Base.step {P Pred ImgS : Type} (fwd : P → List ImgS → Pred)
    (optmStep : P → P) (params : P) (dataLoader : List (List ImgS × LabelT))
    (phase : String) (criterions : List (Criterion Pred LabelT))
    (lblMargin : ℕ) (bpLossIdx : BpIdx) (saveImage : Bool)
    (lossWeights : Option (List ℚ)) :
    Except StepErr (Report × StepState P Pred ImgS) :=
  match normLossWeights (normBp bpLossIdx) lossWeights with
  | .error e => .error e
  | .ok lw =>
      let st0 : StepState P Pred ImgS := ⟨params, criterions, [], 0, 0, []⟩
      let stL := runStep fwd optmStep phase lblMargin (normBp bpLossIdx) lw
        saveImage 0 st0 dataLoader
      let res := finalize stL.crits stL.lossDict
      .ok (res.1, { stL with crits := res.2, lossDict := res.1 })

/-- Whether an `Except` result is a success. -/
def exceptOk {ε α : Type} : Except ε α → Bool
  | .ok _ => true
  | .error _ => false

/-- Projection out of an `Except` result, with a default on error. -/
def okProj {ε α β : Type} (f : α → β) (dflt : β) : Except ε α → β
  | .ok a => f a
  | .error _ => dflt

/- ### Claim C2: eval phase leaves the parameters unchanged -/

theorem stepBody_eval_frame {P Pred ImgS : Type} (fwd : P → List ImgS → Pred)
    (optmStep : P → P) (phase : String) (lblMargin : ℕ) (bp : List ℕ)
    (lw : List (ℕ × ℚ)) (saveImage : Bool) (imgCnt : ℕ)
    (st : StepState P Pred ImgS) (b : List ImgS × LabelT)
    (hph : phase ≠ "train") :
    (stepBody fwd optmStep phase lblMargin bp lw saveImage imgCnt st b).params
        = st.params ∧
    (stepBody fwd optmStep phase lblMargin bp lw saveImage imgCnt st b).nBackward
        = st.nBackward ∧
    (stepBody fwd optmStep phase lblMargin bp lw saveImage imgCnt st b).nOptStep
        = st.nOptStep := by
  unfold stepBody
  simp only [if_neg hph]
  split <;> simp

theorem runStep_eval_frame {P Pred ImgS : Type} (fwd : P → List ImgS → Pred)
    (optmStep : P → P) (phase : String) (lblMargin : ℕ) (bp : List ℕ)
    (lw : List (ℕ × ℚ)) (saveImage : Bool) (hph : phase ≠ "train") :
    ∀ (dl : List (List ImgS × LabelT)) (imgCnt : ℕ) (st : StepState P Pred ImgS),
      (runStep fwd optmStep phase lblMargin bp lw saveImage imgCnt st dl).params
          = st.params ∧
      (runStep fwd optmStep phase lblMargin bp lw saveImage imgCnt st dl).nBackward
          = st.nBackward ∧
      (runStep fwd optmStep phase lblMargin bp lw saveImage imgCnt st dl).nOptStep
          = st.nOptStep := by
  intro dl
  induction dl with
  | nil => intro imgCnt st; exact ⟨rfl, rfl, rfl⟩
  | cons b bs ih =>
      intro imgCnt st
      have hb := stepBody_eval_frame fwd optmStep phase lblMargin bp lw
        saveImage imgCnt st b hph
      have hr := ih (imgCnt + 1)
        (stepBody fwd optmStep phase lblMargin bp lw saveImage imgCnt st b)
      exact ⟨by rw [runStep, hr.1, hb.1], by rw [runStep, hr.2.1, hb.2.1],
        by rw [runStep, hr.2.2, hb.2.2]⟩

/-- Claim C2: one call to `step` in a phase other than train leaves the
model parameters unchanged, never calls `backward` and never applies the
optimizer step. -/
theorem step_eval_preserves_params {P Pred ImgS : Type}
    (fwd : P → List ImgS → Pred) (optmStep : P → P) (params : P)
    (dataLoader : List (List ImgS × LabelT)) (phase : String)
    (criterions : List (Criterion Pred LabelT)) (lblMargin : ℕ)
    (bpLossIdx : BpIdx) (saveImage : Bool) (lossWeights : Option (List ℚ))
    (hph : phase ≠ "train") :
    ∀ r, Base.step fwd optmStep params dataLoader phase criterions lblMargin
        bpLossIdx saveImage lossWeights = Except.ok r →
      r.2.params = params ∧ r.2.nBackward = 0 ∧ r.2.nOptStep = 0 := by
  intro r hr
  unfold Base.step at hr
  cases hlw : normLossWeights (normBp bpLossIdx) lossWeights with
  | error e => rw [hlw] at hr; cases hr
  | ok lw =>
      rw [hlw] at hr
      simp only [Except.ok.injEq] at hr
      have hframe := runStep_eval_frame fwd optmStep phase lblMargin
        (normBp bpLossIdx) lw saveImage hph dataLoader 0
        ⟨params, criterions, [], 0, 0, []⟩
      rw [← hr]
      exact hframe

/-- Witness for C2: a concrete one-batch eval call leaves the parameter 7
unchanged with zero backward and optimizer steps. -/
theorem step_eval_preserves_params_witness :
    ("eval" : String) ≠ "train" ∧
    okProj (fun r => (r.2.params, r.2.nBackward, r.2.nOptStep)) (0, 1, 1)
        (Base.step (fun p _ => p) (fun p => p + 1) (7 : ℕ)
          [([1], [[[0]]])] ("eval")
          [⟨"xent", fun _ _ => 1, 0, 0⟩] 0 (.single 0) true none) =
      (7, 0, 0) := by
  refine ⟨by decide, ?_⟩
  cases hE : Base.step (fun p _ => p) (fun p => p + 1) (7 : ℕ)
      [([1], [[[0]]])] ("eval")
      [⟨"xent", fun _ _ => (1 : ℚ), 0, 0⟩] 0 (.single 0) true none with
  | error e =>
      have hok : exceptOk (Base.step (fun p _ => p) (fun p => p + 1) (7 : ℕ)
          [([1], [[[0]]])] ("eval")
          [⟨"xent", fun _ _ => (1 : ℚ), 0, 0⟩] 0 (.single 0) true none) = true := by
        rfl
      rw [hE] at hok
      cases hok
  | ok r =>
      obtain ⟨h1, h2, h3⟩ := step_eval_preserves_params (fun p _ => p)
        (fun p => p + 1) (7 : ℕ) [([1], [[[0]]])] ("eval")
        [⟨"xent", fun _ _ => (1 : ℚ), 0, 0⟩] 0 (.single 0) true none
        (by decide) r hE
      simp [okProj, h1, h2, h3]

/- ### Claim C4: criterion accounting -/

theorem critLoop_spec {Pred : Type} (phase : String) (bp : List ℕ)
    (lw : List (ℕ × ℚ)) (pred : Pred) (label : LabelT) (bs : ℕ) :
    ∀ (crits : List (Criterion Pred LabelT)) (cnt : ℕ) (acc : ℚ),
      critLoop phase bp lw pred label bs cnt acc crits =
        (acc + ((crits.enumFrom cnt).map (fun p =>
            if phase = "train" ∧ p.1 ∈ bp then lwGet lw p.1 * p.2.f pred label
            else 0)).sum,
         crits.map (fun c => c.update (c.f pred label) bs)) := by
  intro crits
  induction crits with
  | nil => intro cnt acc; simp [critLoop]
  | cons c cs ih =>
      intro cnt acc
      simp only [critLoop, List.enumFrom, List.map_cons, List.sum_cons, ih]
      by_cases hc : phase = "train" ∧ cnt ∈ bp
      · simp [hc, add_assoc]
      · simp [hc]

theorem finalize_resets {A B : Type} :
    ∀ (cs : List (Criterion A B)) (d : Report),
      (finalize cs d).2 = cs.map Criterion.reset := by
  intro cs
  induction cs with
  | nil => intro d; rfl
  | cons c cs ih => intro d; simp [finalize, ih]

theorem finalize_report_of_not_mem {A B : Type} :
    ∀ (cs : List (Criterion A B)) (d : Report) (k : String),
      k ∉ cs.map Criterion.name →
      pyGet (finalize cs d).1 k = pyGet d k := by
  intro cs
  induction cs with
  | nil => intro d k _; rfl
  | cons c cs ih =>
      intro d k hk
      simp only [List.map_cons, List.mem_cons, not_or] at hk
      simp only [finalize]
      rw [ih _ k hk.2]
      exact pyGet_pyInsert_ne d c.name k _ hk.1

theorem finalize_report {A B : Type} :
    ∀ (cs : List (Criterion A B)) (d : Report),
      (cs.map Criterion.name).Nodup →
      ∀ c ∈ cs, pyGet (finalize cs d).1 c.name = some (ReportVal.loss c.getLoss) := by
  intro cs
  induction cs with
  | nil => intro d _ c hc; cases hc
  | cons c0 cs ih =>
      intro d hnd c hc
      simp only [List.map_cons, List.nodup_cons] at hnd
      rcases List.mem_cons.mp hc with rfl | hmem
      · simp only [finalize]
        rw [finalize_report_of_not_mem cs _ c.name hnd.1]
        exact pyGet_pyInsert_self d c.name _
      · simp only [finalize]
        exact ih (pyInsert d c0.name (ReportVal.loss c0.getLoss)) hnd.2 c hmem

/-- Claim C4: in the criterion loop a loss contributes (times its
normalized weight) to the backpropagated total exactly when the phase is
train and the index is selected; every tracker is updated with the batch
size on every batch; after the loop the report holds every criterion
running mean under its name and every criterion is reset. -/
theorem step_criterion_accounting {Pred : Type} (phase : String) (bp : List ℕ)
    (lw : List (ℕ × ℚ)) (pred : Pred) (label : LabelT) (bs : ℕ)
    (crits : List (Criterion Pred LabelT)) (d : Report)
    (hnd : (crits.map Criterion.name).Nodup) :
    (critLoop phase bp lw pred label bs 0 0 crits).1 =
      ((crits.enum).map (fun p =>
        if phase = "train" ∧ p.1 ∈ bp then lwGet lw p.1 * p.2.f pred label
        else 0)).sum ∧
    (critLoop phase bp lw pred label bs 0 0 crits).2 =
      crits.map (fun c => c.update (c.f pred label) bs) ∧
    (finalize crits d).2 = crits.map Criterion.reset ∧
    ∀ c ∈ crits, pyGet (finalize crits d).1 c.name =
      some (ReportVal.loss c.getLoss) := by
  refine ⟨?_, ?_, finalize_resets crits d, finalize_report crits d hnd⟩
  · rw [critLoop_spec phase bp lw pred label bs crits 0 0]
    simp [List.enum]
  · rw [critLoop_spec phase bp lw pred label bs crits 0 0]

/-- Witness for C4 on two concrete criteria in train phase with index 0
selected. -/
theorem step_criterion_accounting_witness :
    (([⟨"a", fun _ _ => 1, 0, 0⟩, ⟨"b", fun _ _ => 2, 0, 0⟩] :
        List (Criterion ℕ LabelT)).map Criterion.name).Nodup ∧
    ((critLoop "train" [0] [(0, 1)] (0 : ℕ) [] 1 0 0
        [⟨"a", fun _ _ => 1, 0, 0⟩, ⟨"b", fun _ _ => 2, 0, 0⟩]).1 =
      ((([⟨"a", fun _ _ => 1, 0, 0⟩, ⟨"b", fun _ _ => 2, 0, 0⟩] :
          List (Criterion ℕ LabelT)).enum).map (fun p =>
        if ("train" : String) = "train" ∧ p.1 ∈ [0] then
          lwGet [(0, 1)] p.1 * p.2.f 0 [] else 0)).sum ∧
    (critLoop "train" [0] [(0, 1)] (0 : ℕ) [] 1 0 0
        [⟨"a", fun _ _ => 1, 0, 0⟩, ⟨"b", fun _ _ => 2, 0, 0⟩]).2 =
      ([⟨"a", fun _ _ => 1, 0, 0⟩, ⟨"b", fun _ _ => 2, 0, 0⟩] :
          List (Criterion ℕ LabelT)).map (fun c => c.update (c.f 0 []) 1) ∧
    (finalize ([⟨"a", fun _ _ => 1, 0, 0⟩, ⟨"b", fun _ _ => 2, 0, 0⟩] :
        List (Criterion ℕ LabelT)) []).2 =
      ([⟨"a", fun _ _ => 1, 0, 0⟩, ⟨"b", fun _ _ => 2, 0, 0⟩] :
          List (Criterion ℕ LabelT)).map Criterion.reset ∧
    ∀ c ∈ ([⟨"a", fun _ _ => 1, 0, 0⟩, ⟨"b", fun _ _ => 2, 0, 0⟩] :
        List (Criterion ℕ LabelT)),
      pyGet (finalize ([⟨"a", fun _ _ => 1, 0, 0⟩,
          ⟨"b", fun _ _ => 2, 0, 0⟩] : List (Criterion ℕ LabelT)) []).1 c.name =
        some (ReportVal.loss c.getLoss)) :=
  ⟨by decide,
   step_criterion_accounting "train" [0] [(0, 1)] (0 : ℕ) [] 1
     [⟨"a", fun _ _ => 1, 0, 0⟩, ⟨"b", fun _ _ => 2, 0, 0⟩] [] (by decide)⟩

/- ### Claim C9: gradient tracking and the train phase -/

theorem stepBody_trace {P Pred ImgS : Type} (fwd : P → List ImgS → Pred)
    (optmStep : P → P) (phase : String) (lblMargin : ℕ) (bp : List ℕ)
    (lw : List (ℕ × ℚ)) (saveImage : Bool) (imgCnt : ℕ)
    (st : StepState P Pred ImgS) (b : List ImgS × LabelT) :
    (stepBody fwd optmStep phase lblMargin bp lw saveImage imgCnt st b).trace =
      st.trace ++ [⟨b.1, true, decide (phase = "train"),
        (critLoop phase bp lw (fwd st.params b.1) (cropIfMargin lblMargin b.2)
          b.1.length 0 0 st.crits).1⟩] := by
  unfold stepBody
  split <;> split <;> rfl

theorem runStep_trace_grad {P Pred ImgS : Type} (fwd : P → List ImgS → Pred)
    (optmStep : P → P) (phase : String) (lblMargin : ℕ) (bp : List ℕ)
    (lw : List (ℕ × ℚ)) (saveImage : Bool) :
    ∀ (dl : List (List ImgS × LabelT)) (imgCnt : ℕ)
      (st : StepState P Pred ImgS),
      (∀ t ∈ st.trace, t.imgReqGrad = true ∧ (t.gradScope = true ↔ phase = "train")) →
      ∀ t ∈ (runStep fwd optmStep phase lblMargin bp lw saveImage imgCnt st dl).trace,
        t.imgReqGrad = true ∧ (t.gradScope = true ↔ phase = "train") := by
  intro dl
  induction dl with
  | nil => intro imgCnt st h; exact h
  | cons b bs ih =>
      intro imgCnt st h
      refine ih (imgCnt + 1) _ ?_
      rw [stepBody_trace]
      intro t ht
      rcases List.mem_append.mp ht with hold | hnew
      · exact h t hold
      · rcases List.mem_singleton.mp hnew with rfl
        exact ⟨rfl, by simp [decide_eq_true_eq]⟩

/-- Claim C9: in every batch of `step` the image tensor has gradient
tracking enabled, and forward runs with gradients enabled exactly in the
train phase (under `no_grad` in every other phase). -/
theorem step_image_grad_phase {P Pred ImgS : Type}
    (fwd : P → List ImgS → Pred) (optmStep : P → P) (params : P)
    (dataLoader : List (List ImgS × LabelT)) (phase : String)
    (criterions : List (Criterion Pred LabelT)) (lblMargin : ℕ)
    (bpLossIdx : BpIdx) (saveImage : Bool) (lossWeights : Option (List ℚ)) :
    ∀ r, Base.step fwd optmStep params dataLoader phase criterions lblMargin
        bpLossIdx saveImage lossWeights = Except.ok r →
      ∀ t ∈ r.2.trace,
        t.imgReqGrad = true ∧ (t.gradScope = true ↔ phase = "train") := by
  intro r hr
  unfold Base.step at hr
  cases hlw : normLossWeights (normBp bpLossIdx) lossWeights with
  | error e => rw [hlw] at hr; cases hr
  | ok lw =>
      rw [hlw] at hr
      simp only [Except.ok.injEq] at hr
      intro t ht
      rw [← hr] at ht
      exact runStep_trace_grad fwd optmStep phase lblMargin (normBp bpLossIdx)
        lw saveImage dataLoader 0 ⟨params, criterions, [], 0, 0, []⟩
        (by intro t ht; cases ht) t ht

/-- Witness for C9: a concrete one-batch train call has gradient tracking
on the image and forward inside the gradient scope. -/
theorem step_image_grad_phase_witness :
    okProj (fun r => decide (∀ t ∈ r.2.trace,
        t.imgReqGrad = true ∧ (t.gradScope = true ↔ ("train" : String) = "train")))
      false
      (Base.step (fun p _ => p) (fun p => p + 1) (7 : ℕ)
        [([1], [[[0]]])] ("train")
        [⟨"xent", fun _ _ => 1, 0, 0⟩] 0 (.single 0) true none) = true := by
  cases hE : Base.step (fun p _ => p) (fun p => p + 1) (7 : ℕ)
      [([1], [[[0]]])] ("train")
      [⟨"xent", fun _ _ => (1 : ℚ), 0, 0⟩] 0 (.single 0) true none with
  | error e =>
      have hok : exceptOk (Base.step (fun p _ => p) (fun p => p + 1) (7 : ℕ)
          [([1], [[[0]]])] ("train")
          [⟨"xent", fun _ _ => (1 : ℚ), 0, 0⟩] 0 (.single 0) true none) = true := by
        rfl
      rw [hE] at hok
      cases hok
  | ok r =>
      simp only [okProj]
      refine decide_eq_true ?_
      simpa using step_image_grad_phase (fun p _ => p) (fun p => p + 1)
        (7 : ℕ) [([1], [[[0]]])] ("train")
        [⟨"xent", fun _ _ => (1 : ℚ), 0, 0⟩] 0 (.single 0) true none r hE

/- ### The auxiliary-classification variant `Base.step_aux` -/

/-- Mutable state threaded through one call to `Base.step_aux`: as for
`step`, plus the classification criterion tracker. -/
structure AuxState (P Pred Cls ImgS ClsT : Type) where
  params : P
  crits : List (Criterion Pred LabelT)
  clsCrit : Criterion Cls ClsT
  lossDict : Report
  nBackward : ℕ
  nOptStep : ℕ
  trace : List (BatchTrace ImgS)

/-- One iteration of the batch loop of `Base.step_aux`: forward returns
the pair `(pred, cls_hat)`; after the criterion loop the classification
loss is added to `loss_all` scaled by the fixed `cls_weight` (in every
phase, outside the normalized weight mapping), and the classification
tracker is updated with the batch size. -/
def stepAuxBody {P Pred Cls ImgS ClsT : Type}
    (fwd : P → List ImgS → Pred × Cls) (optmStep : P → P) (phase : String)
    (lblMargin : ℕ) (bp : List ℕ) (lw : List (ℕ × ℚ)) (clsWeight : ℚ)
    (saveImage : Bool) (imgCnt : ℕ) (st : AuxState P Pred Cls ImgS ClsT)
    (batch : List ImgS × LabelT × ClsT) : AuxState P Pred Cls ImgS ClsT :=
  let image := batch.1
  let imgReqGrad := true
  let gradScope := decide (phase = "train")
  let fwdOut := fwd st.params image
  let label := cropIfMargin lblMargin batch.2.1
  let res := critLoop phase bp lw fwdOut.1 label image.length 0 0 st.crits
  let loss := st.clsCrit.f fwdOut.2 batch.2.2
  let lossAll := res.1 + clsWeight * loss
  let clsC1 := st.clsCrit.update loss image.length
  let st1 :=
    if phase = "train" then
      { st with params := optmStep st.params, crits := res.2, clsCrit := clsC1,
                nBackward := st.nBackward + 1, nOptStep := st.nOptStep + 1 }
    else { st with crits := res.2, clsCrit := clsC1 }
  let st2 :=
    if saveImage ∧ imgCnt = 0 then
      { st1 with lossDict := pyInsert st1.lossDict ("image") ReportVal.image }
    else st1
  { st2 with trace := st2.trace ++ [⟨image, imgReqGrad, gradScope, lossAll⟩] }

/-- The batch loop of `Base.step_aux`. -/
def runAux {P Pred Cls ImgS ClsT : Type}
    (fwd : P → List ImgS → Pred × Cls) (optmStep : P → P) (phase : String)
    (lblMargin : ℕ) (bp : List ℕ) (lw : List (ℕ × ℚ)) (clsWeight : ℚ)
    (saveImage : Bool) :
    ℕ → AuxState P Pred Cls ImgS ClsT → List (List ImgS × LabelT × ClsT) →
    AuxState P Pred Cls ImgS ClsT
  | _, st, [] => st
  | imgCnt, st, b :: bs =>
      runAux fwd optmStep phase lblMargin bp lw clsWeight saveImage (imgCnt + 1)
        (stepAuxBody fwd optmStep phase lblMargin bp lw clsWeight saveImage
          imgCnt st b) bs

/-- The method `Base.step_aux`: one epoch with the auxiliary
classification head. After the usual closing loop the classification
criterion running mean is reported under its name and the criterion is
reset. -/
def Base.step_aux {P Pred Cls ImgS ClsT : Type}
    (fwd : P → List ImgS → Pred × Cls) (optmStep : P → P) (params : P)
    (dataLoader : List (List ImgS × LabelT × ClsT)) (phase : String)
    (criterions : List (Criterion Pred LabelT))
    (clsCriterion : Criterion Cls ClsT) (clsWeight : ℚ) (lblMargin : ℕ)
    (bpLossIdx : BpIdx) (saveImage : Bool) (lossWeights : Option (List ℚ)) :
    Except StepErr (Report × AuxState P Pred Cls ImgS ClsT) :=
  match normLossWeights (normBp bpLossIdx) lossWeights with
  | .error e => .error e
  | .ok lw =>
      let st0 : AuxState P Pred Cls ImgS ClsT :=
        ⟨params, criterions, clsCriterion, [], 0, 0, []⟩
      let stL := runAux fwd optmStep phase lblMargin (normBp bpLossIdx) lw
        clsWeight saveImage 0 st0 dataLoader
      let res := finalize stL.crits stL.lossDict
      let d2 := pyInsert res.1 stL.clsCrit.name (ReportVal.loss stL.clsCrit.getLoss)
      .ok (d2,
        { stL with
            crits := res.2
            clsCrit := stL.clsCrit.reset
            lossDict := d2 })

/- ### Claim C8: the classification loss in `step_aux` -/

theorem stepAuxBody_cls {P Pred Cls ImgS ClsT : Type}
    (fwd : P → List ImgS → Pred × Cls) (optmStep : P → P) (phase : String)
    (lblMargin : ℕ) (bp : List ℕ) (lw : List (ℕ × ℚ)) (clsWeight : ℚ)
    (saveImage : Bool) (imgCnt : ℕ) (st : AuxState P Pred Cls ImgS ClsT)
    (b : List ImgS × LabelT × ClsT) :
    (stepAuxBody fwd optmStep phase lblMargin bp lw clsWeight saveImage
        imgCnt st b).trace =
      st.trace ++ [⟨b.1, true, decide (phase = "train"),
        (critLoop phase bp lw (fwd st.params b.1).1
            (cropIfMargin lblMargin b.2.1) b.1.length 0 0 st.crits).1 +
          clsWeight * st.clsCrit.f (fwd st.params b.1).2 b.2.2⟩] ∧
    (stepAuxBody fwd optmStep phase lblMargin bp lw clsWeight saveImage
        imgCnt st b).clsCrit =
      st.clsCrit.update (st.clsCrit.f (fwd st.params b.1).2 b.2.2) b.1.length := by
  unfold stepAuxBody
  constructor
  · split <;> split <;> rfl
  · split <;> split <;> rfl

theorem runAux_clsCrit_reaches {P Pred Cls ImgS ClsT : Type}
    (fwd : P → List ImgS → Pred × Cls) (optmStep : P → P) (phase : String)
    (lblMargin : ℕ) (bp : List ℕ) (lw : List (ℕ × ℚ)) (clsWeight : ℚ)
    (saveImage : Bool) :
    ∀ (dl : List (List ImgS × LabelT × ClsT)) (imgCnt : ℕ)
      (st : AuxState P Pred Cls ImgS ClsT),
      (runAux fwd optmStep phase lblMargin bp lw clsWeight saveImage
          imgCnt st dl).clsCrit.name = st.clsCrit.name := by
  intro dl
  induction dl with
  | nil => intro imgCnt st; rfl
  | cons b bs ih =>
      intro imgCnt st
      rw [runAux, ih]
      rw [(stepAuxBody_cls fwd optmStep phase lblMargin bp lw clsWeight
        saveImage imgCnt st b).2]
      rfl

/-- Claim C8: in `step_aux` the classification loss is added to the
backpropagated total scaled by the fixed `cls_weight`, outside the
normalized weight mapping and irrespective of `bp_loss_idx`; the
classification tracker is updated on every batch; after the loop the
running mean of the tracker state reached by the loop is reported under
the classification criterion's name and the tracker is reset. -/
theorem step_aux_cls_weighting {P Pred Cls ImgS ClsT : Type}
    (fwd : P → List ImgS → Pred × Cls) (optmStep : P → P) (params : P)
    (dataLoader : List (List ImgS × LabelT × ClsT)) (phase : String)
    (criterions : List (Criterion Pred LabelT))
    (clsCriterion : Criterion Cls ClsT) (clsWeight : ℚ) (lblMargin : ℕ)
    (bpLossIdx : BpIdx) (saveImage : Bool) (lossWeights : Option (List ℚ))
    (bp : List ℕ) (lw : List (ℕ × ℚ)) (imgCnt : ℕ)
    (st : AuxState P Pred Cls ImgS ClsT) (b : List ImgS × LabelT × ClsT) :
    (stepAuxBody fwd optmStep phase lblMargin bp lw clsWeight saveImage
        imgCnt st b).trace =
      st.trace ++ [⟨b.1, true, decide (phase = "train"),
        (critLoop phase bp lw (fwd st.params b.1).1
            (cropIfMargin lblMargin b.2.1) b.1.length 0 0 st.crits).1 +
          clsWeight * st.clsCrit.f (fwd st.params b.1).2 b.2.2⟩] ∧
    (stepAuxBody fwd optmStep phase lblMargin bp lw clsWeight saveImage
        imgCnt st b).clsCrit =
      st.clsCrit.update (st.clsCrit.f (fwd st.params b.1).2 b.2.2) b.1.length ∧
    ∀ lw0, normLossWeights (normBp bpLossIdx) lossWeights = Except.ok lw0 →
      ∀ r, Base.step_aux fwd optmStep params dataLoader phase criterions
          clsCriterion clsWeight lblMargin bpLossIdx saveImage lossWeights =
            Except.ok r →
        pyGet r.1 clsCriterion.name = some (ReportVal.loss
          (runAux fwd optmStep phase lblMargin (normBp bpLossIdx) lw0
            clsWeight saveImage 0
            ⟨params, criterions, clsCriterion, [], 0, 0, []⟩
            dataLoader).clsCrit.getLoss) ∧
        r.2.clsCrit =
          (runAux fwd optmStep phase lblMargin (normBp bpLossIdx) lw0
            clsWeight saveImage 0
            ⟨params, criterions, clsCriterion, [], 0, 0, []⟩
            dataLoader).clsCrit.reset := by
  refine ⟨(stepAuxBody_cls fwd optmStep phase lblMargin bp lw clsWeight
      saveImage imgCnt st b).1,
    (stepAuxBody_cls fwd optmStep phase lblMargin bp lw clsWeight
      saveImage imgCnt st b).2, ?_⟩
  intro lw0 hlw0 r hr
  unfold Base.step_aux at hr
  split at hr
  · cases hr
  · rename_i lw1 hlw1
    rw [hlw0] at hlw1
    simp only [Except.ok.injEq] at hlw1
    subst hlw1
    simp only [Except.ok.injEq] at hr
    rw [← hr]
    constructor
    · have hname : (runAux fwd optmStep phase lblMargin (normBp bpLossIdx) lw0
          clsWeight saveImage 0
          ⟨params, criterions, clsCriterion, [], 0, 0, []⟩
          dataLoader).clsCrit.name = clsCriterion.name :=
        runAux_clsCrit_reaches fwd optmStep phase lblMargin (normBp bpLossIdx)
          lw0 clsWeight saveImage dataLoader 0
          ⟨params, criterions, clsCriterion, [], 0, 0, []⟩
      rw [← hname]
      exact pyGet_pyInsert_self _ _ _
    · rfl

/-- Witness for C8 on a concrete one-batch train call: the report holds
the classification tracker running mean under the key given by its name,
and the returned tracker is the reset of the post-loop tracker. -/
theorem step_aux_cls_weighting_witness :
    normLossWeights (normBp (.single 0)) none = Except.ok [(0, 1)] ∧
    okProj (fun r => pyGet r.1 ("cls")) none
      (Base.step_aux (fun p _ => (p, p)) (fun p => p + 1) (7 : ℕ)
        [([1], [[[0]]], 0)] ("train") [⟨"xent", fun _ _ => 1, 0, 0⟩]
        (⟨"cls", fun _ _ => 2, 0, 0⟩ : Criterion ℕ ℕ) (1 / 2) 0
        (.single 0) true none) =
      some (ReportVal.loss
        (runAux (fun p _ => (p, p)) (fun p => p + 1) ("train") 0
          (normBp (.single 0)) [(0, 1)] (1 / 2) true 0
          ⟨7, [⟨"xent", fun _ _ => 1, 0, 0⟩],
            (⟨"cls", fun _ _ => 2, 0, 0⟩ : Criterion ℕ ℕ), [], 0, 0, []⟩
          [([1], [[[0]]], 0)]).clsCrit.getLoss) ∧
    okProj (fun r => r.2.clsCrit.count) 1
      (Base.step_aux (fun p _ => (p, p)) (fun p => p + 1) (7 : ℕ)
        [([1], [[[0]]], 0)] ("train") [⟨"xent", fun _ _ => 1, 0, 0⟩]
        (⟨"cls", fun _ _ => 2, 0, 0⟩ : Criterion ℕ ℕ) (1 / 2) 0
        (.single 0) true none) = 0 := by
  refine ⟨rfl, ?_⟩
  cases hE : Base.step_aux (fun p _ => (p, p)) (fun p => p + 1) (7 : ℕ)
      [([1], [[[0]]], 0)] ("train") [⟨"xent", fun _ _ => (1 : ℚ), 0, 0⟩]
      (⟨"cls", fun _ _ => (2 : ℚ), 0, 0⟩ : Criterion ℕ ℕ) ((1 : ℚ) / 2) 0
      (.single 0) true none with
  | error e =>
      have hok : exceptOk (Base.step_aux (fun p _ => (p, p)) (fun p => p + 1)
          (7 : ℕ) [([1], [[[0]]], 0)] ("train")
          [⟨"xent", fun _ _ => (1 : ℚ), 0, 0⟩]
          (⟨"cls", fun _ _ => (2 : ℚ), 0, 0⟩ : Criterion ℕ ℕ) ((1 : ℚ) / 2) 0
          (.single 0) true none) = true := by rfl
      rw [hE] at hok
      cases hok
  | ok r =>
      have h := (step_aux_cls_weighting (fun p _ => (p, p)) (fun p => p + 1)
        (7 : ℕ) [([1], [[[0]]], 0)] ("train")
        [⟨"xent", fun _ _ => (1 : ℚ), 0, 0⟩]
        (⟨"cls", fun _ _ => (2 : ℚ), 0, 0⟩ : Criterion ℕ ℕ) ((1 : ℚ) / 2) 0
        (.single 0) true none [0] [(0, 1)] 0
        ⟨7, [⟨"xent", fun _ _ => (1 : ℚ), 0, 0⟩],
          ⟨"cls", fun _ _ => (2 : ℚ), 0, 0⟩, [], 0, 0, []⟩
        ([1], [[[0]]], 0)).2.2 [(0, 1)] rfl r hE
      refine ⟨?_, ?_⟩
      · simp only [okProj]
        exact h.1
      · simp only [okProj]
        rw [h.2]
        rfl

/- ### The mixed-batch variant `Base.step_mixed_batch` -/

/-- One batch of a data source of the mixed variant: an image batch and a
label batch. -/
abbrev MixBatch (ImgS : Type) := List ImgS × LabelT

/-- The state of one `infi_loop` generator: the wrapped finite source and
how many items have been yielded so far. The k-th yield is
`src[k % len(src)]`, restarting from the beginning on exhaustion. -/
structure CycleSt (B : Type) where
  src : List B
  pos : ℕ
deriving DecidableEq, Repr

/-- One `next(dlo)` on an `infi_loop` generator. Over an empty source the
Python generator loops forever producing nothing; that hang is modelled by
`none`. -/
def cycleNext {B : Type} (c : CycleSt B) : Option (B × CycleSt B) :=
  match c.src.get? (c.pos % c.src.length) with
  | none => none
  | some b => some (b, ⟨c.src, c.pos + 1⟩)

/-- The train-phase draw loop `for dlo in data_loader_others: next(dlo)`:
draws one batch from every secondary generator in order. -/
def drawOthers {B : Type} : List (CycleSt B) →
    Option (List B × List (CycleSt B))
  | [] => some ([], [])
  | c :: cs =>
      match cycleNext c with
      | none => none
      | some (b, c1) =>
          match drawOthers cs with
          | none => none
          | some (bs, cs1) => some (b :: bs, c1 :: cs1)

/-- Facts recorded about one batch iteration of the mixed variant: the
image actually fed to forward (after concatenation), the batches drawn
from the secondary sources this iteration, and the gradient scope. -/
structure MixedTrace (ImgS : Type) where
  imageData : List ImgS
  drawn : List (MixBatch ImgS)
  gradScope : Bool
deriving DecidableEq, Repr

/-- Mutable state threaded through one call to `step_mixed_batch`,
including the caller's `data_loader_others` list whose elements the
method replaced in place by `infi_loop` generators. -/
structure MixedState (P Pred ImgS : Type) where
  params : P
  crits : List (Criterion Pred LabelT)
  lossDict : Report
  others : List (CycleSt (MixBatch ImgS))
  nBackward : ℕ
  nOptStep : ℕ
  trace : List (MixedTrace ImgS)

/-- One iteration of the batch loop of `step_mixed_batch`: in train phase
one batch is drawn from every secondary generator and concatenated along
the batch dimension (`torch.cat(..., dim=0)` is list append); in any other
phase nothing is drawn and the concatenation is empty, so the primary
batch is used as is. A hanging draw surfaces as `.error .stuck`. -/
def stepMixedBody {P Pred ImgS : Type} (fwd : P → List ImgS → Pred)
    (optmStep : P → P) (phase : String) (lblMargin : ℕ) (bp : List ℕ)
    (lw : List (ℕ × ℚ)) (saveImage : Bool) (imgCnt : ℕ)
    (st : MixedState P Pred ImgS) (batch : MixBatch ImgS) :
    Except StepErr (MixedState P Pred ImgS) :=
  match if phase = "train" then drawOthers st.others
        else some ([], st.others) with
  | none => .error .stuck
  | some (drawn, others1) =>
      let image := batch.1 ++ (drawn.map Prod.fst).flatten
      let label := batch.2 ++ (drawn.map Prod.snd).flatten
      let gradScope := decide (phase = "train")
      let pred := fwd st.params image
      let label2 := cropIfMargin lblMargin label
      let res := critLoop phase bp lw pred label2 image.length 0 0 st.crits
      let st1 :=
        if phase = "train" then
          { st with params := optmStep st.params, crits := res.2,
                    others := others1, nBackward := st.nBackward + 1,
                    nOptStep := st.nOptStep + 1 }
        else { st with crits := res.2, others := others1 }
      let st2 :=
        if saveImage ∧ imgCnt = 0 then
          { st1 with lossDict := pyInsert st1.lossDict ("image") ReportVal.image }
        else st1
      .ok { st2 with trace := st2.trace ++ [⟨image, drawn, gradScope⟩] }

/-- The batch loop of `step_mixed_batch` over the primary source. -/
def runMixed {P Pred ImgS : Type} (fwd : P → List ImgS → Pred)
    (optmStep : P → P) (phase : String) (lblMargin : ℕ) (bp : List ℕ)
    (lw : List (ℕ × ℚ)) (saveImage : Bool) :
    ℕ → MixedState P Pred ImgS → List (MixBatch ImgS) →
    Except StepErr (MixedState P Pred ImgS)
  | _, st, [] => .ok st
  | imgCnt, st, b :: bs =>
      match stepMixedBody fwd optmStep phase lblMargin bp lw saveImage
          imgCnt st b with
      | .error e => .error e
      | .ok st1 =>
          runMixed fwd optmStep phase lblMargin bp lw saveImage (imgCnt + 1)
            st1 bs

/-- The method `Base.step_mixed_batch`: before anything else every element
of the caller's `data_loader_others` list is replaced in place by an
`infi_loop` generator over the original finite source; then one epoch runs
over the primary source. The source performs the wrapping before the
`loss_weights` assert; the wrap is pure and the error result carries no
state, so matching on the assert first is observationally the same
here. -/
def Base.step_mixed_batch {P Pred ImgS : Type} (fwd : P → List ImgS → Pred)
    (optmStep : P → P) (params : P) (dataLoaderRef : List (MixBatch ImgS))
    (dataLoaderOthers : List (List (MixBatch ImgS))) (phase : String)
    (criterions : List (Criterion Pred LabelT)) (lblMargin : ℕ)
    (bpLossIdx : BpIdx) (saveImage : Bool) (lossWeights : Option (List ℚ)) :
    Except StepErr (Report × MixedState P Pred ImgS) :=
  match normLossWeights (normBp bpLossIdx) lossWeights with
  | .error e => .error e
  | .ok lw =>
      match runMixed fwd optmStep phase lblMargin (normBp bpLossIdx) lw
          saveImage 0
          ⟨params, criterions, [],
            dataLoaderOthers.map (fun l => CycleSt.mk l 0), 0, 0, []⟩
          dataLoaderRef with
      | .error e => .error e
      | .ok stL =>
          .ok ((finalize stL.crits stL.lossDict).1,
            { stL with crits := (finalize stL.crits stL.lossDict).2,
                       lossDict := (finalize stL.crits stL.lossDict).1 })

/-- The cyclic draw schedule the mixed variant is expected to follow: at
iteration k of the primary loop (counting from a start offset) each
secondary source of the given list yields its element at index
`k mod length`. Used only to state the cycling property. -/
def cyclicSchedule {ImgS : Type} (srcs : List (List (MixBatch ImgS))) :
    ℕ → ℕ → List (List (MixBatch ImgS))
  | _, 0 => []
  | p, n + 1 =>
      srcs.map (fun l => l.getD (p % l.length) ([], [])) ::
        cyclicSchedule srcs (p + 1) n

/- ### Cycling lemmas for the mixed variant -/

theorem cycleNext_nonempty {ImgS : Type} (l : List (MixBatch ImgS)) (p : ℕ)
    (h : l ≠ []) :
    cycleNext ⟨l, p⟩ = some (l.getD (p % l.length) ([], []), ⟨l, p + 1⟩) := by
  have hlen : 0 < l.length := List.length_pos.mpr h
  have hlt : p % l.length < l.length := Nat.mod_lt _ hlen
  unfold cycleNext
  rw [List.get?_eq_get hlt]
  rw [List.getD_eq_get? l (p % l.length) ([], []), List.get?_eq_get hlt]
  rfl

theorem drawOthers_spec {ImgS : Type} (srcs : List (List (MixBatch ImgS)))
    (hne : ∀ l ∈ srcs, l ≠ []) (p : ℕ) :
    drawOthers (srcs.map (fun l => CycleSt.mk l p)) =
      some (srcs.map (fun l => l.getD (p % l.length) ([], [])),
        srcs.map (fun l => CycleSt.mk l (p + 1))) := by
  induction srcs with
  | nil => rfl
  | cons l ls ih =>
      have hl : l ≠ [] := hne l (by simp)
      have hls : ∀ x ∈ ls, x ≠ [] := fun x hx => hne x (by simp [hx])
      simp only [List.map_cons, drawOthers, cycleNext_nonempty l p hl, ih hls]

theorem drawOthers_srcs {ImgS : Type} :
    ∀ (cs : List (CycleSt (MixBatch ImgS))) (ds : List (MixBatch ImgS))
      (cs1 : List (CycleSt (MixBatch ImgS))),
      drawOthers cs = some (ds, cs1) →
      cs1.map CycleSt.src = cs.map CycleSt.src := by
  intro cs
  induction cs with
  | nil => intro ds cs1 h; cases h; rfl
  | cons c cs ih =>
      intro ds cs1 h
      unfold drawOthers at h
      cases hc : cycleNext c with
      | none => rw [hc] at h; cases h
      | some bc =>
          rw [hc] at h
          cases hrest : drawOthers cs with
          | none => rw [hrest] at h; cases h
          | some r =>
              rw [hrest] at h
              cases h
              have hsrc : bc.2.src = c.src := by
                unfold cycleNext at hc
                cases hg : c.src.get? (c.pos % c.src.length) with
                | none => rw [hg] at hc; cases hc
                | some b => rw [hg] at hc; cases hc; rfl
              simp [hsrc, ih r.1 r.2 hrest]

/-- Projection facts about one train-phase iteration of the mixed body,
given a successful draw from the secondaries. -/
theorem stepMixedBody_train {P Pred ImgS : Type} (fwd : P → List ImgS → Pred)
    (optmStep : P → P) (lblMargin : ℕ) (bp : List ℕ) (lw : List (ℕ × ℚ))
    (saveImage : Bool) (imgCnt : ℕ) (st : MixedState P Pred ImgS)
    (b : MixBatch ImgS) (drawn : List (MixBatch ImgS))
    (others1 : List (CycleSt (MixBatch ImgS)))
    (hdraw : drawOthers st.others = some (drawn, others1)) :
    ∃ st1, stepMixedBody fwd optmStep "train" lblMargin bp lw saveImage
        imgCnt st b = .ok st1 ∧
      st1.others = others1 ∧
      st1.trace = st.trace ++
        [⟨b.1 ++ (drawn.map Prod.fst).flatten, drawn, true⟩] := by
  unfold stepMixedBody
  rw [if_pos rfl, hdraw]
  by_cases hc : saveImage ∧ imgCnt = 0
  · exact ⟨_, rfl, by simp [hc], by simp [hc]⟩
  · exact ⟨_, rfl, by simp [hc], by simp [hc]⟩

/-- Projection facts about one non-train iteration of the mixed body:
nothing is drawn, the secondaries are untouched, the parameters and the
counters are unchanged. -/
theorem stepMixedBody_eval {P Pred ImgS : Type} (fwd : P → List ImgS → Pred)
    (optmStep : P → P) (phase : String) (lblMargin : ℕ) (bp : List ℕ)
    (lw : List (ℕ × ℚ)) (saveImage : Bool) (imgCnt : ℕ)
    (st : MixedState P Pred ImgS) (b : MixBatch ImgS)
    (hph : phase ≠ "train") :
    ∃ st1, stepMixedBody fwd optmStep phase lblMargin bp lw saveImage
        imgCnt st b = .ok st1 ∧
      st1.others = st.others ∧
      st1.trace = st.trace ++ [⟨b.1, [], false⟩] ∧
      st1.params = st.params ∧
      st1.nBackward = st.nBackward ∧ st1.nOptStep = st.nOptStep := by
  unfold stepMixedBody
  rw [if_neg hph]
  by_cases hc : saveImage ∧ imgCnt = 0
  · exact ⟨_, rfl, by simp [hph, hc], by simp [hph, hc, decide_eq_false hph],
      by simp [hph, hc], by simp [hph, hc], by simp [hph, hc]⟩
  · exact ⟨_, rfl, by simp [hph, hc], by simp [hph, hc, decide_eq_false hph],
      by simp [hph, hc], by simp [hph, hc], by simp [hph, hc]⟩

theorem runMixed_eval {P Pred ImgS : Type} (fwd : P → List ImgS → Pred)
    (optmStep : P → P) (phase : String) (lblMargin : ℕ) (bp : List ℕ)
    (lw : List (ℕ × ℚ)) (saveImage : Bool) (hph : phase ≠ "train") :
    ∀ (ref : List (MixBatch ImgS)) (imgCnt : ℕ) (st : MixedState P Pred ImgS),
      ∃ st', runMixed fwd optmStep phase lblMargin bp lw saveImage imgCnt st ref
          = .ok st' ∧
        st'.others = st.others ∧
        st'.trace = st.trace ++ ref.map (fun b => ⟨b.1, [], false⟩) ∧
        st'.params = st.params ∧
        st'.nBackward = st.nBackward ∧ st'.nOptStep = st.nOptStep := by
  intro ref
  induction ref with
  | nil =>
      intro imgCnt st
      exact ⟨st, rfl, rfl, by simp, rfl, rfl, rfl⟩
  | cons b bs ih =>
      intro imgCnt st
      obtain ⟨st1, hbody, ho1, ht1, hp1, hb1, hs1⟩ :=
        stepMixedBody_eval fwd optmStep phase lblMargin bp lw saveImage
          imgCnt st b hph
      obtain ⟨st', hrun, ho2, ht2, hp2, hb2, hs2⟩ := ih (imgCnt + 1) st1
      refine ⟨st', ?_, by rw [ho2, ho1], ?_, by rw [hp2, hp1],
        by rw [hb2, hb1], by rw [hs2, hs1]⟩
      · rw [runMixed, hbody]
        exact hrun
      · rw [ht2, ht1]
        simp

theorem runMixed_train {P Pred ImgS : Type} (fwd : P → List ImgS → Pred)
    (optmStep : P → P) (lblMargin : ℕ) (bp : List ℕ) (lw : List (ℕ × ℚ))
    (saveImage : Bool) (srcs : List (List (MixBatch ImgS)))
    (hne : ∀ l ∈ srcs, l ≠ []) :
    ∀ (ref : List (MixBatch ImgS)) (imgCnt p : ℕ)
      (st : MixedState P Pred ImgS),
      st.others = srcs.map (fun l => CycleSt.mk l p) →
      ∃ st', runMixed fwd optmStep "train" lblMargin bp lw saveImage imgCnt
          st ref = .ok st' ∧
        st'.others = srcs.map (fun l => CycleSt.mk l (p + ref.length)) ∧
        st'.trace = st.trace ++
          List.zipWith (fun (b : MixBatch ImgS) d =>
              (⟨b.1 ++ (List.map Prod.fst d).flatten, d, true⟩ : MixedTrace ImgS))
            ref (cyclicSchedule srcs p ref.length) := by
  intro ref
  induction ref with
  | nil =>
      intro imgCnt p st hot
      exact ⟨st, rfl, by simpa using hot, by simp [cyclicSchedule]⟩
  | cons b bs ih =>
      intro imgCnt p st hot
      have hdraw : drawOthers st.others =
          some (srcs.map (fun l => l.getD (p % l.length) ([], [])),
            srcs.map (fun l => CycleSt.mk l (p + 1))) := by
        rw [hot]; exact drawOthers_spec srcs hne p
      obtain ⟨st1, hbody, ho1, ht1⟩ :=
        stepMixedBody_train fwd optmStep lblMargin bp lw saveImage imgCnt st b
          (srcs.map (fun l => l.getD (p % l.length) ([], [])))
          (srcs.map (fun l => CycleSt.mk l (p + 1))) hdraw
      obtain ⟨st', hrun, ho2, ht2⟩ := ih (imgCnt + 1) (p + 1) st1 ho1
      refine ⟨st', ?_, ?_, ?_⟩
      · rw [runMixed, hbody]
        exact hrun
      · rw [ho2]
        have harith : p + 1 + bs.length = p + (b :: bs).length := by
          simp; omega
        rw [harith]
      · rw [ht2, ht1, List.length_cons]
        simp only [cyclicSchedule, List.zipWith_cons_cons, List.append_assoc,
          List.singleton_append]

theorem map_src_mk {ImgS : Type} (ls : List (List (MixBatch ImgS))) (p : ℕ) :
    (ls.map (fun l => CycleSt.mk l p)).map CycleSt.src = ls := by
  induction ls with
  | nil => rfl
  | cons l l2 ih => simp [ih]

theorem stepMixedBody_others {P Pred ImgS : Type} (fwd : P → List ImgS → Pred)
    (optmStep : P → P) (phase : String) (lblMargin : ℕ) (bp : List ℕ)
    (lw : List (ℕ × ℚ)) (saveImage : Bool) (imgCnt : ℕ)
    (st : MixedState P Pred ImgS) (b : MixBatch ImgS)
    (st1 : MixedState P Pred ImgS)
    (hb : stepMixedBody fwd optmStep phase lblMargin bp lw saveImage imgCnt
        st b = .ok st1) :
    st1.others.map CycleSt.src = st.others.map CycleSt.src := by
  by_cases hph : phase = "train"
  · subst hph
    cases hd : drawOthers st.others with
    | none =>
        unfold stepMixedBody at hb
        rw [if_pos rfl, hd] at hb
        cases hb
    | some dc =>
        obtain ⟨ds, cs1⟩ := dc
        obtain ⟨st1', hb', ho, _⟩ := stepMixedBody_train fwd optmStep lblMargin
          bp lw saveImage imgCnt st b ds cs1 hd
        rw [hb] at hb'
        simp only [Except.ok.injEq] at hb'
        subst hb'
        rw [ho]
        exact drawOthers_srcs st.others ds cs1 hd
  · obtain ⟨st1', hb', ho, _, _, _, _⟩ := stepMixedBody_eval fwd optmStep phase
      lblMargin bp lw saveImage imgCnt st b hph
    rw [hb] at hb'
    simp only [Except.ok.injEq] at hb'
    subst hb'
    rw [ho]

theorem runMixed_srcs {P Pred ImgS : Type} (fwd : P → List ImgS → Pred)
    (optmStep : P → P) (phase : String) (lblMargin : ℕ) (bp : List ℕ)
    (lw : List (ℕ × ℚ)) (saveImage : Bool) :
    ∀ (ref : List (MixBatch ImgS)) (imgCnt : ℕ)
      (st st' : MixedState P Pred ImgS),
      runMixed fwd optmStep phase lblMargin bp lw saveImage imgCnt st ref
          = .ok st' →
      st'.others.map CycleSt.src = st.others.map CycleSt.src := by
  intro ref
  induction ref with
  | nil => intro imgCnt st st' h; cases h; rfl
  | cons b bs ih =>
      intro imgCnt st st' h
      rw [runMixed] at h
      cases hb : stepMixedBody fwd optmStep phase lblMargin bp lw saveImage
          imgCnt st b with
      | error e => rw [hb] at h; cases h
      | ok st1 =>
          rw [hb] at h
          rw [ih (imgCnt + 1) st1 st' h,
            stepMixedBody_others fwd optmStep phase lblMargin bp lw saveImage
              imgCnt st b st1 hb]

/- ### Claim C1: mixed-batch cycling -/

/-- Claim C1: in train phase every primary batch is concatenated along the
batch dimension with one batch drawn from each secondary source, each
secondary cycling with wraparound and never exhausting; in non-train
phases only the primary source is used and no secondary is advanced. In
particular with a primary of length 5 and a secondary of length 2 the
secondary yields its batches in cyclic order 0,1,0,1,0. -/
theorem step_mixed_batch_cycles {P Pred ImgS : Type}
    (fwd : P → List ImgS → Pred) (optmStep : P → P) (params : P)
    (dataLoaderRef : List (MixBatch ImgS))
    (dataLoaderOthers : List (List (MixBatch ImgS))) (phase : String)
    (criterions : List (Criterion Pred LabelT)) (lblMargin : ℕ)
    (bpLossIdx : BpIdx) (saveImage : Bool) (lossWeights : Option (List ℚ)) :
    (phase ≠ "train" →
      ∀ r, Base.step_mixed_batch fwd optmStep params dataLoaderRef
          dataLoaderOthers phase criterions lblMargin bpLossIdx saveImage
          lossWeights = Except.ok r →
        r.2.others = dataLoaderOthers.map (fun l => CycleSt.mk l 0) ∧
        r.2.trace = dataLoaderRef.map (fun b => ⟨b.1, [], false⟩)) ∧
    (phase = "train" → (∀ l ∈ dataLoaderOthers, l ≠ []) →
      Base.step_mixed_batch fwd optmStep params dataLoaderRef
          dataLoaderOthers phase criterions lblMargin bpLossIdx saveImage
          lossWeights ≠ Except.error .stuck ∧
      ∀ r, Base.step_mixed_batch fwd optmStep params dataLoaderRef
          dataLoaderOthers phase criterions lblMargin bpLossIdx saveImage
          lossWeights = Except.ok r →
        r.2.others = dataLoaderOthers.map
          (fun l => CycleSt.mk l dataLoaderRef.length) ∧
        r.2.trace = List.zipWith (fun (b : MixBatch ImgS) d =>
            (⟨b.1 ++ (List.map Prod.fst d).flatten, d, true⟩ : MixedTrace ImgS))
          dataLoaderRef (cyclicSchedule dataLoaderOthers 0 dataLoaderRef.length)) ∧
    okProj (fun r => r.2.trace.map MixedTrace.drawn) []
      (Base.step_mixed_batch (fun (_ : ℕ) (_ : List ℕ) => (0 : ℕ)) (fun p => p)
        (0 : ℕ)
        [([100], []), ([101], []), ([102], []), ([103], []), ([104], [])]
        [[([10], []), ([11], [])]] ("train") [⟨"a", fun _ _ => 1, 0, 0⟩] 0
        (.single 0) true none) =
      [[([10], [])], [([11], [])], [([10], [])], [([11], [])], [([10], [])]] := by
  refine ⟨?_, ?_, ?_⟩
  · intro hph r hr
    unfold Base.step_mixed_batch at hr
    split at hr
    · cases hr
    · rename_i lw hlw
      split at hr
      · cases hr
      · rename_i stL hrun
        simp only [Except.ok.injEq] at hr
        obtain ⟨st', hrun', ho, ht, _, _, _⟩ := runMixed_eval fwd optmStep
          phase lblMargin (normBp bpLossIdx) lw saveImage hph
          dataLoaderRef 0
          ⟨params, criterions, [],
            dataLoaderOthers.map (fun l => CycleSt.mk l 0), 0, 0, []⟩
        rw [hrun] at hrun'
        simp only [Except.ok.injEq] at hrun'
        subst hrun'
        rw [← hr]
        exact ⟨ho, by simpa using ht⟩
  · intro hph hne
    subst hph
    constructor
    · intro hcon
      unfold Base.step_mixed_batch at hcon
      split at hcon
      · rename_i e hlw
        simp only [Except.error.injEq] at hcon
        subst hcon
        unfold normLossWeights at hlw
        cases lossWeights with
        | none => simp at hlw
        | some ws =>
            by_cases hlen : ws.length = (normBp bpLossIdx).length <;>
              simp [hlen] at hlw
      · rename_i lw hlw
        split at hcon
        · rename_i e hrun
          simp only [Except.error.injEq] at hcon
          subst hcon
          obtain ⟨st', hrun', _, _⟩ := runMixed_train fwd optmStep lblMargin
            (normBp bpLossIdx) lw saveImage dataLoaderOthers hne
            dataLoaderRef 0 0
            ⟨params, criterions, [],
              dataLoaderOthers.map (fun l => CycleSt.mk l 0), 0, 0, []⟩ rfl
          rw [hrun] at hrun'
          cases hrun'
        · cases hcon
    · intro r hr
      unfold Base.step_mixed_batch at hr
      split at hr
      · cases hr
      · rename_i lw hlw
        split at hr
        · cases hr
        · rename_i stL hrun
          simp only [Except.ok.injEq] at hr
          obtain ⟨st', hrun', ho, ht⟩ := runMixed_train fwd optmStep lblMargin
            (normBp bpLossIdx) lw saveImage dataLoaderOthers hne
            dataLoaderRef 0 0
            ⟨params, criterions, [],
              dataLoaderOthers.map (fun l => CycleSt.mk l 0), 0, 0, []⟩ rfl
          rw [hrun] at hrun'
          simp only [Except.ok.injEq] at hrun'
          subst hrun'
          rw [← hr]
          refine ⟨by simpa using ho, by simpa using ht⟩
  · decide

/-- Witness for C1: the concrete 5-primary, 2-secondary train run of the
theorem, checked through the theorem itself, leaves the secondary
generator five positions ahead. -/
theorem step_mixed_batch_cycles_witness :
    (("train" : String) = "train" ∧
      (∀ l ∈ [[([10], []), ([11], [])]], l ≠ ([] : List (MixBatch ℕ)))) ∧
    okProj (fun r => r.2.others) []
      (Base.step_mixed_batch (fun (_ : ℕ) (_ : List ℕ) => (0 : ℕ)) (fun p => p)
        (0 : ℕ)
        [([100], []), ([101], []), ([102], []), ([103], []), ([104], [])]
        [[([10], []), ([11], [])]] ("train") [⟨"a", fun _ _ => 1, 0, 0⟩] 0
        (.single 0) true none) =
      [⟨[([10], []), ([11], [])], 5⟩] := by
  refine ⟨⟨rfl, by decide⟩, ?_⟩
  have h := (step_mixed_batch_cycles (fun (_ : ℕ) (_ : List ℕ) => (0 : ℕ))
    (fun p => p) (0 : ℕ)
    [([100], []), ([101], []), ([102], []), ([103], []), ([104], [])]
    [[([10], []), ([11], [])]] ("train") [⟨"a", fun _ _ => 1, 0, 0⟩] 0
    (.single 0) true none).2.1 rfl (by decide)
  cases hE : Base.step_mixed_batch (fun (_ : ℕ) (_ : List ℕ) => (0 : ℕ))
      (fun p => p) (0 : ℕ)
      [([100], []), ([101], []), ([102], []), ([103], []), ([104], [])]
      [[([10], []), ([11], [])]] ("train")
      [⟨"a", fun _ _ => (1 : ℚ), 0, 0⟩] 0 (.single 0) true none with
  | error e =>
      have hok : exceptOk (Base.step_mixed_batch
          (fun (_ : ℕ) (_ : List ℕ) => (0 : ℕ)) (fun p => p) (0 : ℕ)
          [([100], []), ([101], []), ([102], []), ([103], []), ([104], [])]
          [[([10], []), ([11], [])]] ("train")
          [⟨"a", fun _ _ => (1 : ℚ), 0, 0⟩] 0 (.single 0) true none) = true := by
        rfl
      rw [hE] at hok
      cases hok
  | ok r =>
      have hprops := h.2 r hE
      simp only [okProj]
      rw [hprops.1]
      rfl

/- ### Claim C10: in-place replacement of the caller's secondary list -/

/-- Claim C10: `step_mixed_batch` replaces every element of the caller's
`data_loader_others` list in place with an infinite cycling generator over
the original finite source, in every phase, so after the call the list no
longer holds the original finite sources. -/
theorem step_mixed_batch_mutates {P Pred ImgS : Type}
    (fwd : P → List ImgS → Pred) (optmStep : P → P) (params : P)
    (dataLoaderRef : List (MixBatch ImgS))
    (dataLoaderOthers : List (List (MixBatch ImgS))) (phase : String)
    (criterions : List (Criterion Pred LabelT)) (lblMargin : ℕ)
    (bpLossIdx : BpIdx) (saveImage : Bool) (lossWeights : Option (List ℚ)) :
    ∀ r, Base.step_mixed_batch fwd optmStep params dataLoaderRef
        dataLoaderOthers phase criterions lblMargin bpLossIdx saveImage
        lossWeights = Except.ok r →
      r.2.others.map CycleSt.src = dataLoaderOthers := by
  intro r hr
  unfold Base.step_mixed_batch at hr
  split at hr
  · cases hr
  · rename_i lw hlw
    split at hr
    · cases hr
    · rename_i stL hrun
      simp only [Except.ok.injEq] at hr
      rw [← hr]
      have hsrc := runMixed_srcs fwd optmStep phase lblMargin
        (normBp bpLossIdx) lw saveImage dataLoaderRef 0
        ⟨params, criterions, [],
          dataLoaderOthers.map (fun l => CycleSt.mk l 0), 0, 0, []⟩
        stL hrun
      rw [show (⟨params, criterions, [],
          dataLoaderOthers.map (fun l => CycleSt.mk l 0), 0, 0, []⟩ :
            MixedState P Pred ImgS).others =
          dataLoaderOthers.map (fun l => CycleSt.mk l 0) from rfl,
        map_src_mk dataLoaderOthers 0] at hsrc
      exact hsrc

/-- Witness for C10: an eval-phase call still replaces the secondary list
by generators over the original sources. -/
theorem step_mixed_batch_mutates_witness :
    okProj (fun r => r.2.others.map CycleSt.src) []
      (Base.step_mixed_batch (fun (_ : ℕ) (_ : List ℕ) => (0 : ℕ)) (fun p => p)
        (0 : ℕ) [([100], [])] [[([10], []), ([11], [])]] ("eval")
        [⟨"a", fun _ _ => 1, 0, 0⟩] 0 (.single 0) true none) =
      [[([10], []), ([11], [])]] := by
  cases hE : Base.step_mixed_batch (fun (_ : ℕ) (_ : List ℕ) => (0 : ℕ))
      (fun p => p) (0 : ℕ) [([100], [])] [[([10], []), ([11], [])]] ("eval")
      [⟨"a", fun _ _ => (1 : ℚ), 0, 0⟩] 0 (.single 0) true none with
  | error e =>
      have hok : exceptOk (Base.step_mixed_batch
          (fun (_ : ℕ) (_ : List ℕ) => (0 : ℕ)) (fun p => p) (0 : ℕ)
          [([100], [])] [[([10], []), ([11], [])]] ("eval")
          [⟨"a", fun _ _ => (1 : ℚ), 0, 0⟩] 0 (.single 0) true none) = true := by
        rfl
      rw [hE] at hok
      cases hok
  | ok r =>
      have h := step_mixed_batch_mutates (fun (_ : ℕ) (_ : List ℕ) => (0 : ℕ))
        (fun p => p) (0 : ℕ) [([100], [])] [[([10], []), ([11], [])]] ("eval")
        [⟨"a", fun _ _ => (1 : ℚ), 0, 0⟩] 0 (.single 0) true none r hE
      simp only [okProj]
      rw [h]

/- ### Claim C6: the loss weight length assertion -/

/-- Claim C6: when `loss_weights` is given and its length differs from
`bp_loss_idx`, each of the three step variants fails with the assertion
error before any batch is processed (the result is the same for every data
source, and the weights are never truncated or padded). -/
theorem loss_weights_length_assert {P Pred Cls ImgS ClsT : Type}
    (fwd : P → List ImgS → Pred) (fwdA : P → List ImgS → Pred × Cls)
    (optmStep : P → P) (params : P)
    (dataLoader : List (List ImgS × LabelT))
    (dataLoaderA : List (List ImgS × LabelT × ClsT))
    (dataLoaderRef : List (MixBatch ImgS))
    (dataLoaderOthers : List (List (MixBatch ImgS))) (phase : String)
    (criterions : List (Criterion Pred LabelT))
    (clsCriterion : Criterion Cls ClsT) (clsWeight : ℚ) (lblMargin : ℕ)
    (bpLossIdx : BpIdx) (saveImage : Bool) (ws : List ℚ)
    (hws : ws.length ≠ (normBp bpLossIdx).length) :
    Base.step fwd optmStep params dataLoader phase criterions lblMargin
        bpLossIdx saveImage (some ws) = .error .assertionError ∧
    Base.step_aux fwdA optmStep params dataLoaderA phase criterions
        clsCriterion clsWeight lblMargin bpLossIdx saveImage (some ws) =
      .error .assertionError ∧
    Base.step_mixed_batch fwd optmStep params dataLoaderRef dataLoaderOthers
        phase criterions lblMargin bpLossIdx saveImage (some ws) =
      .error .assertionError := by
  have hlw : normLossWeights (normBp bpLossIdx) (some ws) =
      .error .assertionError := by
    simp [normLossWeights, hws]
  refine ⟨?_, ?_, ?_⟩
  · unfold Base.step
    rw [hlw]
  · unfold Base.step_aux
    rw [hlw]
  · unfold Base.step_mixed_batch
    rw [hlw]

/-- Witness for C6: two weights against one selected index fail in all
three variants, even with nonempty data sources waiting to be consumed
(no batch is processed and the weights are not truncated to fit). -/
theorem loss_weights_length_assert_witness :
    (([3, 1] : List ℚ).length ≠ (normBp (.single 0)).length) ∧
    Base.step (fun (p : ℕ) (_ : List ℕ) => (0 : ℕ)) (fun p => p) 7
        [([1], [[[0]]])] ("train") [⟨"xent", fun _ _ => 1, 0, 0⟩] 0
        (.single 0) true (some [3, 1]) =
      .error .assertionError ∧
    Base.step_aux (fun (p : ℕ) (_ : List ℕ) => ((0 : ℕ), (0 : ℕ))) (fun p => p)
        7 [([1], [[[0]]], 0)] ("train") [⟨"xent", fun _ _ => 1, 0, 0⟩]
        (⟨"cls", fun _ _ => 1, 0, 0⟩ : Criterion ℕ ℕ) 1 0
        (.single 0) true (some [3, 1]) =
      .error .assertionError ∧
    Base.step_mixed_batch (fun (p : ℕ) (_ : List ℕ) => (0 : ℕ)) (fun p => p)
        7 [([1], [[[0]]])] [[([2], [])]] ("train")
        [⟨"xent", fun _ _ => 1, 0, 0⟩] 0 (.single 0) true (some [3, 1]) =
      .error .assertionError := by
  have h := loss_weights_length_assert
    (fun (p : ℕ) (_ : List ℕ) => (0 : ℕ))
    (fun (p : ℕ) (_ : List ℕ) => ((0 : ℕ), (0 : ℕ))) (fun p => p) 7
    [([1], [[[0]]])] [([1], [[[0]]], 0)] [([1], [[[0]]])] [[([2], [])]]
    ("train") [⟨"xent", fun _ _ => (1 : ℚ), 0, 0⟩]
    (⟨"cls", fun _ _ => (1 : ℚ), 0, 0⟩ : Criterion ℕ ℕ) 1 0
    (.single 0) true [3, 1] (by decide)
  exact ⟨by decide, h.1, h.2.1, h.2.2⟩

end MRS
